import Mathlib

/-!
Shallow embedding of the two microbenchmark programs of this repository:
`dram_row_policy.c` (DRAM row-buffer policy classifier) and
`memtest_allsizes.c` (memcpy timing sweep across buffer sizes).

Machine integers (`uint64_t`, `size_t`) are modeled as `Nat`; the `long double`
accumulation domain of the statistics code is modeled by exact rationals `ℚ`;
the standard deviation is represented by its square (the variance), since the
final `sqrt` is a deterministic function of it.  Side-effecting operations
(`clflush`/`mfence`, CSV output via `fprintf`, `fopen` failure and `exit`) are
modeled as explicit traces, structured file records and result values.
-/

/-! ## dram_row_policy.c: policy classifier (lines 129-140) -/

/-- The two DRAM row-buffer policies the program can report. -/
inductive Policy where
  | OpenRow
  | ClosedRow
deriving DecidableEq, Repr

/-- The decision threshold appearing in `if (speedup_ratio > 1.5)`
(dram_row_policy.c line 133). -/
def speedupThreshold : ℚ := 3 / 2

/-- dram_row_policy.c lines 130-140: `speedup_ratio = mean_first / mean_second`;
prints OPEN-ROW when `speedup_ratio > 1.5`, otherwise CLOSED-ROW. -/
def classify (mean_first mean_second : ℚ) : Policy :=
  if mean_first / mean_second > speedupThreshold then Policy.OpenRow else Policy.ClosedRow

/-! ## flush_buffer (memtest_allsizes.c lines 46-54, dram_row_policy.c lines 45-52) -/

/-- An event issued by `flush_buffer`: a `clflush` of the cache line containing
an address, or an `mfence`. -/
inductive MemEvent where
  | flush (addr : Nat)
  | fence
deriving DecidableEq, Repr

/-- The offsets visited by the loop
`for (size_t off = 0; off < size; off += line)` with `line = 64`
(memtest_allsizes.c lines 49-51). -/
def flushLoop (size off : Nat) : List Nat :=
  if h : off < size then off :: flushLoop size (off + 64) else []
termination_by size - off
decreasing_by omega

/-- `flush_buffer(buf, size)`: issues `clflush_line(p + off)` for each loop
offset, then `mfence` (memtest_allsizes.c lines 46-54).  Modeled as the trace
of events issued, in program order. -/
def flush_buffer (buf size : Nat) : List MemEvent :=
  ((flushLoop size 0).map (fun off => MemEvent.flush (buf + off))) ++ [MemEvent.fence]

/-! ## Statistics (memtest_allsizes.c lines 176-199) -/

/-- The summary printed at memtest_allsizes.c line 201: count (`REPEAT`), mean,
standard deviation (carried as its square `variance`, of which the printed
`stddev` is the square root), min, max, median. -/
structure SummaryStatistics where
  count : Nat
  mean : ℚ
  variance : ℚ
  minv : Nat
  maxv : Nat
  median : Nat
deriving DecidableEq, Repr

/-- memtest_allsizes.c lines 176-199: sort a copy of `results` ascending
(`qsort` with `cmp_uint64`; modeled by an ascending sort), accumulate the sum
and the sum of squared deviations in `long double` (modeled exactly in `ℚ`),
and read min, max and median from the sorted copy.  The median expression
keeps the source's ternary `(REPEAT % 2 == 0) ? sorted[REPEAT / 2] : sorted[REPEAT / 2]`
(line 199). -/
def computeStats (results : List Nat) : SummaryStatistics :=
  let REPEAT := results.length
  let sorted := List.insertionSort (· ≤ ·) results
  let sum : ℚ := results.foldl (fun (acc : ℚ) (r : Nat) => acc + (r : ℚ)) 0
  let mean : ℚ := sum / (REPEAT : ℚ)
  let ssum : ℚ :=
    results.foldl (fun (acc : ℚ) (r : Nat) => acc + ((r : ℚ) - mean) * ((r : ℚ) - mean)) 0
  { count := REPEAT
    mean := mean
    variance := ssum / (REPEAT : ℚ)
    minv := sorted.getD 0 0
    maxv := sorted.getD (REPEAT - 1) 0
    median := if REPEAT % 2 == 0 then sorted.getD (REPEAT / 2) 0 else sorted.getD (REPEAT / 2) 0 }

/-! ## Size selection and sweep (memtest_allsizes.c main) -/

/-- memtest_allsizes.c line 69: the fixed exponent set. -/
def exponents : List Nat := [6, 7, 8, 9, 10, 11, 12, 13, 14, 15, 16, 20, 21]

/-- memtest_allsizes.c line 70. -/
def n_sizes : Nat := exponents.length

/-- memtest_allsizes.c lines 73-90: `x = atoi(argv[1])`; when `x != 0` and `x`
occurs in `exponents`, the sweep range is narrowed to that single index,
otherwise the full range `[0, n_sizes-1]` is kept.  The input is the `atoi`
result (an `Int`; `atoi` yields 0 for a non-numeric argument). -/
def selectRange (x : Int) : Nat × Nat :=
  if x ≠ 0 then
    match exponents.findIdx? (fun (e : Nat) => (e : Int) == x) with
    | some found => (found, found)
    | none => (0, n_sizes - 1)
  else (0, n_sizes - 1)

/-- memtest_allsizes.c line 163: `snprintf(fname, ..., "memcpy_2pow%d_%zub.csv", x, size)`. -/
def csvName (x : Nat) (size : Nat) : String :=
  "memcpy_2pow" ++ toString x ++ "_" ++ toString size ++ "b.csv"

/-- The buffer sizes `2^exponents[si]` measured by the loop at
memtest_allsizes.c lines 100-102, for index range given by `selectRange`. -/
def sizesRun (x : Int) : List Nat :=
  let r := selectRange x
  (List.range (r.2 + 1 - r.1)).map (fun j => 2 ^ (exponents.getD (r.1 + j) 0))

/-- The CSV file names produced for the sizes run (memtest_allsizes.c line 163). -/
def csvFilesRun (x : Int) : List String :=
  let r := selectRange x
  (List.range (r.2 + 1 - r.1)).map
    (fun j => csvName (exponents.getD (r.1 + j) 0) (2 ^ (exponents.getD (r.1 + j) 0)))

/-- memtest_allsizes.c lines 105-114: the adaptive trial count `REPEAT` chosen
from the buffer size. -/
def repeatFor (size : Nat) : Nat :=
  if size ≤ 4096 then 200000
  else if size ≤ 65536 then 50000
  else if size ≤ 262144 then 20000
  else if size ≤ 1048576 then 8000
  else 2000

/-- memtest_allsizes.c lines 148-159: the measurement loop stores one cycle
sample per repetition, `results[rep] = t1 - t0`.  The hardware timing is an
oracle mapping the repetition index to the measured cycle count. -/
def runMeasurement (oracle : Nat → Nat) (size : Nat) : List Nat :=
  (List.range (repeatFor size)).map oracle

/-! ## CSV export (memtest_allsizes.c lines 161-174) -/

/-- One line of the CSV file: the header line `rep,cycles` (line 169), or a
data row `"%zu,%PRIu64"` carrying the repetition index and its cycle sample
(line 171). -/
inductive CsvLine where
  | header
  | row (rep : Nat) (cycles : Nat)
deriving DecidableEq, Repr

/-- memtest_allsizes.c lines 169-172: the file content written for a sample
series, header first, then one row per trial in original order. -/
def exportCsv (samples : List Nat) : List CsvLine :=
  CsvLine.header :: (samples.enum.map (fun p => CsvLine.row p.1 p.2))

/-- Reading back the data rows of a CSV file: takes each row's `cycles`
column; fails on a stray header line. -/
def readRows : List CsvLine → Option (List Nat)
  | [] => some []
  | CsvLine.row _ c :: rest => (readRows rest).map (fun l => c :: l)
  | CsvLine.header :: _ => none

/-- Reading a CSV file back: requires the header line first, then takes each
data row's `cycles` column; fails on a malformed file. -/
def readCsv (file : List CsvLine) : Option (List Nat) :=
  match file with
  | CsvLine.header :: rows => readRows rows
  | _ => none

/-- A file system mapping names to contents. -/
def FileSystem : Type := String → Option (List CsvLine)

/-- `fopen(fname, "w")` followed by writing `content`: truncates whatever was
at `name` and replaces it. -/
def writeFile (fs : FileSystem) (name : String) (content : List CsvLine) : FileSystem :=
  fun n => if n = name then some content else fs n

/-! ## The sweep loop with export failure (memtest_allsizes.c lines 100-208) -/

/-- Outcome of the per-size sweep: `completed` with the list of buffer sizes
whose measurement loop ran, or `exited code` when the process called
`exit(code)` part-way through. -/
inductive SweepResult where
  | completed (measured : List Nat)
  | exited (code : Nat) (measured : List Nat)
deriving DecidableEq, Repr

/-- The sweep over the selected exponents (memtest_allsizes.c lines 100-208,
export at 161-173): for each exponent, the measurement loop runs, then the CSV
file is opened; if `fopen` fails the process exits with code 1 (lines 164-168),
otherwise the sweep continues with the next exponent.  `canOpen` tells which
destinations can be opened; `measured` accumulates the sizes measured so far. -/
def runSweep (canOpen : String → Bool) : List Nat → List Nat → SweepResult
  | [], measured => SweepResult.completed measured
  | x :: rest, measured =>
      let size := 2 ^ x
      let measured' := measured ++ [size]
      if canOpen (csvName x size) then runSweep canOpen rest measured'
      else SweepResult.exited 1 measured'

/-! ## Helper lemmas -/

/-- Folding `acc + r` over a list starting from `init` is `init` plus the sum
of the casts (the accumulation loops at memtest_allsizes.c lines 188-189 and
192-195). -/
theorem foldl_add_cast (l : List Nat) (init : ℚ) :
    List.foldl (fun (acc : ℚ) (r : Nat) => acc + (r : ℚ)) init l
      = init + (List.map (fun r : Nat => (r : ℚ)) l).sum := by
  induction l generalizing init with
  | nil => simp
  | cons a l ih =>
    rw [List.map_cons, List.sum_cons, List.foldl_cons, ih]
    ring

/-- `getD` at an in-bounds index is the indexed element. -/
theorem getD_eq_of_lt (l : List Nat) (n d : Nat) (h : n < l.length) : l.getD n d = l[n] := by
  simp [List.getD_eq_getElem?_getD, List.getElem?_eq_getElem h]

/-- The reported minimum (`sorted[0]`, line 197) is a lower bound of the series. -/
theorem computeStats_minv_le (s : List Nat) (h : s ≠ []) :
    ∀ v ∈ s, (computeStats s).minv ≤ v := by
  intro v hv
  have hperm := List.perm_insertionSort (· ≤ ·) s
  have hsorted := List.sorted_insertionSort (· ≤ ·) s
  have hlen : (List.insertionSort (· ≤ ·) s).length = s.length := hperm.length_eq
  have hpos : 0 < s.length := List.length_pos.mpr h
  obtain ⟨i, hi, rfl⟩ := List.getElem_of_mem (hperm.mem_iff.mpr hv)
  have hmin : (computeStats s).minv = (List.insertionSort (· ≤ ·) s).getD 0 0 := rfl
  rw [hmin, getD_eq_of_lt _ _ _ (by omega)]
  have := hsorted.rel_get_of_le (a := ⟨0, by omega⟩) (b := ⟨i, hi⟩) (by simp)
  simpa using this

/-- The reported maximum (`sorted[REPEAT-1]`, line 198) is an upper bound of
the series. -/
theorem computeStats_le_maxv (s : List Nat) (h : s ≠ []) :
    ∀ v ∈ s, v ≤ (computeStats s).maxv := by
  intro v hv
  have hperm := List.perm_insertionSort (· ≤ ·) s
  have hsorted := List.sorted_insertionSort (· ≤ ·) s
  have hlen : (List.insertionSort (· ≤ ·) s).length = s.length := hperm.length_eq
  have hpos : 0 < s.length := List.length_pos.mpr h
  obtain ⟨i, hi, rfl⟩ := List.getElem_of_mem (hperm.mem_iff.mpr hv)
  have hmax : (computeStats s).maxv = (List.insertionSort (· ≤ ·) s).getD (s.length - 1) 0 := rfl
  rw [hmax, getD_eq_of_lt _ _ _ (by omega)]
  have := hsorted.rel_get_of_le (a := ⟨i, hi⟩) (b := ⟨s.length - 1, by omega⟩)
    (Fin.mk_le_mk.mpr (by omega))
  simpa using this

/-- The reported median (`sorted[REPEAT/2]`, line 199) is an element of the
series. -/
theorem computeStats_median_mem (s : List Nat) (h : s ≠ []) :
    (computeStats s).median ∈ s := by
  have hperm := List.perm_insertionSort (· ≤ ·) s
  have hlen : (List.insertionSort (· ≤ ·) s).length = s.length := hperm.length_eq
  have hpos : 0 < s.length := List.length_pos.mpr h
  have hmed : (computeStats s).median = (List.insertionSort (· ≤ ·) s).getD (s.length / 2) 0 := by
    simp [computeStats]
  rw [hmed, getD_eq_of_lt _ _ _ (by omega)]
  exact hperm.mem_iff.mp (List.getElem_mem _)

/-! ## Claim theorems -/

/-- C1: the policy classifier computes `ratio = firstAccessMean / secondAccessMean`
and reports OpenRow exactly when `ratio > 1.5`, otherwise ClosedRow; the
boundary is exclusive: `classify 3 1 = OpenRow`, `classify (11/10) 1 = ClosedRow`,
`classify (3/2) 1 = ClosedRow`. -/
theorem classify_threshold_spec :
    (∀ mean_first mean_second : ℚ,
      classify mean_first mean_second = Policy.OpenRow ↔ mean_first / mean_second > 3 / 2)
    ∧ (∀ mean_first mean_second : ℚ,
      classify mean_first mean_second = Policy.ClosedRow ↔ ¬(mean_first / mean_second > 3 / 2))
    ∧ classify 3 1 = Policy.OpenRow
    ∧ classify (11 / 10) 1 = Policy.ClosedRow
    ∧ classify (3 / 2) 1 = Policy.ClosedRow := by
  refine ⟨?_, ?_, by simp [classify, speedupThreshold],
    by simp [classify, speedupThreshold]; norm_num, by simp [classify, speedupThreshold]⟩
  · intro mf ms
    unfold classify speedupThreshold
    split
    · simp_all
    · simp_all
  · intro mf ms
    unfold classify speedupThreshold
    split
    · simp_all
    · simp_all

/-- C2: the reported median is taken from the ascending-sorted series at
zero-based index `count / 2` (for an odd count this is the middle element),
and is an element of the series (no interpolation or averaging). -/
theorem median_from_sorted (s : List Nat) (h : s ≠ []) :
    ∃ t : List Nat, List.Sorted (· ≤ ·) t ∧ s.Perm t ∧
      (computeStats s).median = t.getD (s.length / 2) 0 ∧ (computeStats s).median ∈ s :=
  ⟨List.insertionSort (· ≤ ·) s, List.sorted_insertionSort _ s,
    (List.perm_insertionSort _ s).symm, by simp [computeStats], computeStats_median_mem s h⟩

/-- Witness for C2 at the concrete series `[2, 1, 3]`. -/
theorem median_from_sorted_witness :
    ∃ t : List Nat, List.Sorted (· ≤ ·) t ∧ List.Perm [2, 1, 3] t ∧
      (computeStats [2, 1, 3]).median = t.getD ([2, 1, 3].length / 2) 0
      ∧ (computeStats [2, 1, 3]).median ∈ [2, 1, 3] :=
  median_from_sorted [2, 1, 3] (by simp)

/-- C3: for every non-empty series, `min ≤ median ≤ max` and
`min ≤ mean ≤ max` (the mean compared after casting into the accumulation
domain). -/
theorem stats_bounds (s : List Nat) (h : s ≠ []) :
    ((computeStats s).minv ≤ (computeStats s).median
      ∧ (computeStats s).median ≤ (computeStats s).maxv)
    ∧ (((computeStats s).minv : ℚ) ≤ (computeStats s).mean
      ∧ (computeStats s).mean ≤ ((computeStats s).maxv : ℚ)) := by
  have hmem := computeStats_median_mem s h
  have hpos : 0 < s.length := List.length_pos.mpr h
  have hposQ : (0 : ℚ) < (s.length : ℚ) := by exact_mod_cast hpos
  have hmean : (computeStats s).mean
      = (List.map (fun r : Nat => (r : ℚ)) s).sum / (s.length : ℚ) := by
    have hrfl : (computeStats s).mean
        = List.foldl (fun (acc : ℚ) (r : Nat) => acc + (r : ℚ)) 0 s / (s.length : ℚ) := by
      rfl
    rw [hrfl, foldl_add_cast, zero_add]
  refine ⟨⟨computeStats_minv_le s h _ hmem, computeStats_le_maxv s h _ hmem⟩, ?_, ?_⟩
  · have hlb : ∀ x ∈ List.map (fun r : Nat => (r : ℚ)) s, ((computeStats s).minv : ℚ) ≤ x := by
      intro x hx
      obtain ⟨v, hv, rfl⟩ := List.mem_map.mp hx
      exact_mod_cast computeStats_minv_le s h v hv
    have h1 := List.card_nsmul_le_sum _ _ hlb
    rw [List.length_map, nsmul_eq_mul] at h1
    rw [hmean, le_div_iff₀ hposQ, mul_comm]
    exact h1
  · have hub : ∀ x ∈ List.map (fun r : Nat => (r : ℚ)) s, x ≤ ((computeStats s).maxv : ℚ) := by
      intro x hx
      obtain ⟨v, hv, rfl⟩ := List.mem_map.mp hx
      exact_mod_cast computeStats_le_maxv s h v hv
    have h1 := List.sum_le_card_nsmul _ _ hub
    rw [List.length_map, nsmul_eq_mul] at h1
    rw [hmean, div_le_iff₀ hposQ, mul_comm]
    exact h1

/-- Witness for C3 at the concrete series `[3, 1, 2, 4]`. -/
theorem stats_bounds_witness :
    ((computeStats [3, 1, 2, 4]).minv ≤ (computeStats [3, 1, 2, 4]).median
      ∧ (computeStats [3, 1, 2, 4]).median ≤ (computeStats [3, 1, 2, 4]).maxv)
    ∧ (((computeStats [3, 1, 2, 4]).minv : ℚ) ≤ (computeStats [3, 1, 2, 4]).mean
      ∧ (computeStats [3, 1, 2, 4]).mean ≤ ((computeStats [3, 1, 2, 4]).maxv : ℚ)) :=
  stats_bounds [3, 1, 2, 4] (by simp)

/-- C4: summarization is deterministic — the summary is a pure function of the
sample values alone, so the same unchanged series yields identical results. -/
theorem computeStats_deterministic (s t : List Nat) (h : s = t) :
    computeStats s = computeStats t :=
  congrArg computeStats h

/-- Witness for C4 at the concrete series `[5, 7, 7]`. -/
theorem computeStats_deterministic_witness :
    computeStats [5, 7, 7] = computeStats [5, 7, 7] :=
  computeStats_deterministic [5, 7, 7] [5, 7, 7] rfl

/-- The loop offsets are exactly the multiples of 64 below `size`, relative to
the loop's starting offset. -/
theorem flushLoop_eq (size off : Nat) :
    flushLoop size off = (List.range ((size - off + 63) / 64)).map (fun k => off + 64 * k) := by
  by_cases h : off < size
  · have ih := flushLoop_eq size (off + 64)
    rw [flushLoop]
    simp only [h, dif_pos]
    rw [ih]
    have hc : (size - off + 63) / 64 = (size - (off + 64) + 63) / 64 + 1 := by omega
    rw [hc, List.range_succ_eq_map, List.map_cons, List.map_map]
    refine congrArg₂ _ (by omega) (List.map_congr_left ?_)
    intro k _
    simp [Function.comp]
    omega
  · rw [flushLoop]
    have hc : (size - off + 63) / 64 = 0 := by omega
    simp [h, hc]
termination_by size - off
decreasing_by omega

/-- C5: for a 64-byte-aligned base and positive size, `flush_buffer` issues one
flush per 64-byte stride covering `[buf, buf+size)` — `⌈size/64⌉` flushes at
`buf, buf+64, ...` — so every 64-byte line intersecting the region (all of
which start at `64*l` with `buf ≤ 64*l < buf+size` by alignment) receives a
flush, including the final partial line, and the trace ends with the fence. -/
theorem flush_buffer_spec (buf size : Nat) (halign : buf % 64 = 0) (hpos : 0 < size) :
    flush_buffer buf size
      = ((List.range ((size + 63) / 64)).map (fun k => MemEvent.flush (buf + 64 * k)))
        ++ [MemEvent.fence]
    ∧ (∀ l : Nat, buf ≤ 64 * l → 64 * l < buf + size →
        MemEvent.flush (64 * l) ∈ flush_buffer buf size)
    ∧ (flush_buffer buf size).getLast? = some MemEvent.fence := by
  have hchar : flush_buffer buf size
      = ((List.range ((size + 63) / 64)).map (fun k => MemEvent.flush (buf + 64 * k)))
        ++ [MemEvent.fence] := by
    unfold flush_buffer
    rw [flushLoop_eq]
    simp [List.map_map, Function.comp]
  refine ⟨hchar, ?_, ?_⟩
  · intro l hl1 hl2
    rw [hchar]
    refine List.mem_append_left _ ?_
    refine List.mem_map.mpr ⟨l - buf / 64, List.mem_range.mpr (by omega), ?_⟩
    congr 1
    omega
  · rw [hchar]
    exact List.getLast?_concat _

/-- Witness for C5 at `buf = 64`, `size = 100` (not a multiple of 64: the final
partial line at address 128 is still flushed). -/
theorem flush_buffer_spec_witness :
    MemEvent.flush 128 ∈ flush_buffer 64 100
    ∧ (flush_buffer 64 100).getLast? = some MemEvent.fence :=
  ⟨(flush_buffer_spec 64 100 (by decide) (by decide)).2.1 2 (by decide) (by decide),
   (flush_buffer_spec 64 100 (by decide) (by decide)).2.2⟩

/-- C6: an argument whose `atoi` value is a member of the exponent set
`{6,...,16,20,21}` selects exactly that one size `2^x` (with its one CSV file
named for that size; exponent 12 gives only the `4096`-byte configuration and
the file `memcpy_2pow12_4096b.csv`); any other value runs the full default
set of all thirteen sizes, and this is not an error. -/
theorem size_selection_spec :
    (∀ x : Int, x ∈ ([6, 7, 8, 9, 10, 11, 12, 13, 14, 15, 16, 20, 21] : List Int) →
        sizesRun x = [2 ^ x.toNat] ∧ csvFilesRun x = [csvName x.toNat (2 ^ x.toNat)])
    ∧ (∀ x : Int, x ∉ ([6, 7, 8, 9, 10, 11, 12, 13, 14, 15, 16, 20, 21] : List Int) →
        sizesRun x = exponents.map (fun e => 2 ^ e) ∧ (sizesRun x).length = 13)
    ∧ sizesRun 12 = [4096]
    ∧ csvFilesRun 12 = ["memcpy_2pow12_4096b.csv"] := by
  refine ⟨?_, ?_, by decide, by decide⟩
  · intro x hx
    fin_cases hx <;> exact ⟨by decide, by decide⟩
  · intro x hx
    by_cases h0 : x = 0
    · subst h0
      exact ⟨by decide, by decide⟩
    · have hfind : exponents.findIdx? (fun (e : Nat) => (e : Int) == x) = none := by
        rw [List.findIdx?_eq_none_iff]
        intro e he
        simp only [beq_eq_false_iff_ne, ne_eq]
        intro hcast
        apply hx
        rw [← hcast]
        simp [exponents] at he
        rcases he with h | h | h | h | h | h | h | h | h | h | h | h | h <;> subst h <;> decide
      have hsel : selectRange x = (0, n_sizes - 1) := by
        unfold selectRange
        simp [h0, hfind]
      constructor
      · unfold sizesRun
        rw [hsel]
        decide
      · unfold sizesRun
        rw [hsel]
        decide

/-- Witness for C6: exponent 12 selects only the 4096-byte size, and the
non-member value 5 runs the full thirteen-size default set. -/
theorem size_selection_spec_witness :
    (sizesRun 12 = [2 ^ (12 : Int).toNat]
      ∧ csvFilesRun 12 = [csvName (12 : Int).toNat (2 ^ (12 : Int).toNat)])
    ∧ (sizesRun 5 = exponents.map (fun e => 2 ^ e) ∧ (sizesRun 5).length = 13) :=
  ⟨size_selection_spec.1 12 (by decide), size_selection_spec.2.1 5 (by decide)⟩

/-- C7 counterexample: the claim that an export-open failure lets the sweep
proceed to the next configured size is false — with a destination that cannot
be opened, the full sweep exits the process (code 1) after the first size's
measurement, leaving the remaining twelve sizes unmeasured
(memtest_allsizes.c lines 164-168 call `exit(1)`). -/
theorem sweep_export_failure_counterexample :
    ¬ (∀ canOpen : String → Bool, ∃ measured : List Nat,
        runSweep canOpen exponents [] = SweepResult.completed measured) := by
  intro h
  obtain ⟨m, hm⟩ := h (fun _ => false)
  have hrun : runSweep (fun _ => false) exponents [] = SweepResult.exited 1 [64] := rfl
  rw [hrun] at hm
  exact SweepResult.noConfusion hm

/-- C7 amended: a failure to open the CSV export destination for a size
terminates the whole process immediately with exit code 1, right after that
size's measurement; no further configured size is measured. -/
theorem sweep_exits_on_export_failure (canOpen : String → Bool) (x : Nat)
    (rest measured : List Nat) (h : canOpen (csvName x (2 ^ x)) = false) :
    runSweep canOpen (x :: rest) measured = SweepResult.exited 1 (measured ++ [2 ^ x]) := by
  unfold runSweep
  simp [h]

/-- Witness for the amended C7 at a sweep of exponents `[6, 7]` whose first
export destination cannot be opened. -/
theorem sweep_exits_on_export_failure_witness :
    runSweep (fun _ => false) [6, 7] [] = SweepResult.exited 1 ([] ++ [2 ^ 6]) :=
  sweep_exits_on_export_failure (fun _ => false) 6 [7] [] rfl

/-- Reading the rendered data rows back recovers the samples, for any starting
index of the enumeration. -/
theorem readRows_enumFrom (samples : List Nat) (n : Nat) :
    readRows ((List.enumFrom n samples).map (fun p => CsvLine.row p.1 p.2)) = some samples := by
  induction samples generalizing n with
  | nil => rfl
  | cons a l ih => simp [List.enumFrom, readRows, ih]

/-- C8: the exported CSV is the header line `rep,cycles` followed by exactly
`N` data rows, the zero-based `i`-th carrying index `i` and the `i`-th sample
in trial order; reading the file back yields the original series, and writing
to an already-written destination fully replaces its content. -/
theorem csv_export_roundtrip (samples : List Nat) :
    (exportCsv samples).head? = some CsvLine.header
    ∧ (exportCsv samples).length = samples.length + 1
    ∧ (∀ i, i < samples.length →
        (exportCsv samples)[i + 1]? = some (CsvLine.row i (samples.getD i 0)))
    ∧ readCsv (exportCsv samples) = some samples
    ∧ (∀ fs : FileSystem, ∀ name : String, ∀ old : List CsvLine,
        writeFile (writeFile fs name old) name (exportCsv samples) name
          = some (exportCsv samples)) := by
  refine ⟨rfl, ?_, ?_, ?_, ?_⟩
  · simp [exportCsv]
  · intro i hi
    simp [exportCsv, List.getElem?_enum, getD_eq_of_lt _ _ _ hi,
      List.getElem?_eq_getElem hi]
  · unfold readCsv exportCsv
    exact readRows_enumFrom samples 0
  · intro fs name old
    simp [writeFile]

/-- Witness for C8 at the concrete series `[5, 7]`. -/
theorem csv_export_roundtrip_witness :
    readCsv (exportCsv [5, 7]) = some [5, 7]
    ∧ (exportCsv [5, 7])[0 + 1]? = some (CsvLine.row 0 ([5, 7].getD 0 0)) :=
  ⟨(csv_export_roundtrip [5, 7]).2.2.2.1,
   (csv_export_roundtrip [5, 7]).2.2.1 0 (by decide)⟩

/-- C10: the trial count is a fixed deterministic function of the buffer size
(200000 for sizes ≤ 4096, 50000 for ≤ 65536, 20000 for ≤ 262144, 8000 for
≤ 1048576, 2000 otherwise), and the sample series, the CSV data rows and the
statistics count all have exactly that many entries, whatever the measured
cycle values are. -/
theorem repeat_counts (oracle : Nat → Nat) (size : Nat) :
    ((size ≤ 4096 → repeatFor size = 200000)
      ∧ (4096 < size → size ≤ 65536 → repeatFor size = 50000)
      ∧ (65536 < size → size ≤ 262144 → repeatFor size = 20000)
      ∧ (262144 < size → size ≤ 1048576 → repeatFor size = 8000)
      ∧ (1048576 < size → repeatFor size = 2000))
    ∧ (runMeasurement oracle size).length = repeatFor size
    ∧ (computeStats (runMeasurement oracle size)).count = repeatFor size
    ∧ (exportCsv (runMeasurement oracle size)).length = repeatFor size + 1 := by
  refine ⟨⟨?_, ?_, ?_, ?_, ?_⟩, ?_, ?_, ?_⟩
  · intro h1
    unfold repeatFor
    split_ifs <;> omega
  · intro h1 h2
    unfold repeatFor
    split_ifs <;> omega
  · intro h1 h2
    unfold repeatFor
    split_ifs <;> omega
  · intro h1 h2
    unfold repeatFor
    split_ifs <;> omega
  · intro h1
    unfold repeatFor
    split_ifs <;> omega
  · simp [runMeasurement]
  · simp [computeStats, runMeasurement]
  · simp [exportCsv, runMeasurement, List.enum_length]

/-- Witness for C10 at sizes 4096 (boundary of the 200000-trial band) and
2097152 (the 2000-trial band), with a concrete timing oracle. -/
theorem repeat_counts_witness :
    repeatFor 4096 = 200000
    ∧ (runMeasurement (fun i => i) 4096).length = repeatFor 4096
    ∧ repeatFor 2097152 = 2000 :=
  ⟨(repeat_counts (fun i => i) 4096).1.1 (by decide),
   (repeat_counts (fun i => i) 4096).2.1,
   (repeat_counts (fun i => i) 2097152).1.2.2.2.2 (by decide)⟩

/-- Witness for C1 at the concrete means 3.0 and 1.0. -/
theorem classify_threshold_spec_witness :
    classify 3 1 = Policy.OpenRow ∧ (classify 3 1 = Policy.OpenRow ↔ (3 : ℚ) / 1 > 3 / 2) :=
  ⟨classify_threshold_spec.2.2.1, classify_threshold_spec.1 3 1⟩
